import Mathlib

/-!
Verification development for the farmor-node portfolio tracker backend.

The JavaScript source is shallowly embedded over exact rational
arithmetic.  JavaScript numbers appearing in the relevant code paths are
modelled as follows:

* an ordinary numeric value is a rational number;
* a value that may be `undefined` or `NaN` is an `Option ℚ`, with `none`
  standing for the not-a-usable-number case (both `undefined` and `NaN`
  are falsy, absorb arithmetic, and print as a non-number, which is all
  the embedded code ever observes about them);
* `x.toFixed(d)` followed by `parseFloat` is rounding half-up (toward
  positive infinity on ties, the tie direction prescribed for `toFixed`)
  to `d` decimal places;
* truthiness of a numeric value (`x && ...`, `!x`, `a || b`) is
  `x ≠ 0` on present values and false on `none`.

Asynchronous fetches are embedded by passing the outcome of the network
interaction as an explicit argument, and the in-process exchange-rate
cache by explicit state passing.
-/

set_option allowUnsafeReducibility true in
attribute [semireducible] Rat.add Rat.sub Rat.mul Rat.inv Rat.ofScientific

/-- JavaScript `Math.floor`, in executable form. -/
def jsFloor (q : ℚ) : ℤ := q.floor

/-- JavaScript `Math.ceil`, in executable form. -/
def jsCeil (q : ℚ) : ℤ := q.ceil

/-- JavaScript `x.toFixed(dp)` then `parseFloat`: round half-up (ties toward
positive infinity) to `dp` decimal places. -/
def jsFixed (dp : ℕ) (q : ℚ) : ℚ :=
  (jsFloor (q * (10 : ℚ) ^ dp + 1/2) : ℚ) / (10 : ℚ) ^ dp

/-- Rounding to 2 decimals, as produced by `parseFloat(x.toFixed(2))`. -/
def round2 (q : ℚ) : ℚ := jsFixed 2 q

/-- Rounding to 4 decimals, as produced by `parseFloat(x.toFixed(4))`. -/
def round4 (q : ℚ) : ℚ := jsFixed 4 q

/-- Truthiness of a possibly-absent JavaScript number: `undefined`, `NaN`
and `0` are falsy. -/
def truthyQ : Option ℚ → Bool
  | some q => q ≠ 0
  | none => false

/-- JavaScript `a || d` on a possibly-absent number `a` with default `d`. -/
def jsNumOr (a : Option ℚ) (d : ℚ) : ℚ :=
  match a with
  | some q => if q = 0 then d else q
  | none => d

/-- Addition on possibly-`NaN`/`undefined` numbers: any bad operand yields
`NaN`. -/
def jsAdd : Option ℚ → Option ℚ → Option ℚ
  | some a, some b => some (a + b)
  | _, _ => none

/-- Subtraction with `NaN` absorption. -/
def jsSub : Option ℚ → Option ℚ → Option ℚ
  | some a, some b => some (a - b)
  | _, _ => none

/-- Multiplication with `NaN` absorption. -/
def jsMul : Option ℚ → Option ℚ → Option ℚ
  | some a, some b => some (a * b)
  | _, _ => none

/-- Division with `NaN` absorption; division by zero (an infinity in
JavaScript) is also collapsed to `none`, and is always guarded in the
embedded code. -/
def jsDiv : Option ℚ → Option ℚ → Option ℚ
  | some a, some b => if b = 0 then none else some (a / b)
  | _, _ => none

/-- JavaScript comparison `x > 0`: false on `undefined`/`NaN`. -/
def jsGtZero : Option ℚ → Bool
  | some q => 0 < q
  | none => false

/-- `parseFloat(x.toFixed(2))` on a possibly-`NaN` value: `NaN.toFixed`
gives the string NaN, which parses back to `NaN`. -/
def jsRound2 : Option ℚ → Option ℚ
  | some q => some (round2 q)
  | none => none

/-- The floor/ceil rank interpolation of the `percentile` helper at a
fractional index into a sorted array: `sorted[lower]` when the index is
whole, otherwise
`sorted[lower] * (1 - weight) + sorted[upper] * weight`. -/
def interpAt (sorted : List ℚ) (index : ℚ) : ℚ :=
  let lower := (jsFloor index).toNat
  let upper := (jsCeil index).toNat
  let weight := index - jsFloor index
  if lower = upper then sorted.getD lower 0
  else sorted.getD lower 0 * (1 - weight) + sorted.getD upper 0 * weight

namespace DividendsRoute

/-!
Embedding of the dividends route (source file with the sophisticated
estimator, symbol `calculateRegularDividend`): the static exchange-rate
table, `convertToDKK`, `percentile` and the dividend estimator with its
four resolution methods.
-/

/-- The static route-local exchange-rate table of the dividends route. -/
def EXCHANGE_RATES : List (String × ℚ) :=
  [("DKK", 1), ("USD", 638/100), ("EUR", 746/100), ("GBP", 847/100),
   ("SEK", 63/100), ("NOK", 60/100), ("CHF", 731/100)]

/-- The dividends-route helper `convertToDKK`: non-positive or missing
amounts yield 0; unknown currency codes use the USD table entry. -/
def convertToDKK (amount : Option ℚ) (currency : String) : ℚ :=
  if amount = none ∨ amount = some 0 ∨ jsNumOr amount 0 < 0 then 0
  else
    let rate := ((EXCHANGE_RATES.lookup currency).getD
      ((EXCHANGE_RATES.lookup "USD").getD 0))
    round2 (jsNumOr amount 0 * rate)

/-- The `percentile` helper: rank interpolation at index
`p / 100 * (n - 1)` over the ascending sort of the values. -/
def percentile (arr : List ℚ) (p : ℚ) : ℚ :=
  if arr = [] then 0
  else
    let sorted := arr.insertionSort (· ≤ ·)
    interpAt sorted (p / 100 * ((sorted.length : ℚ) - 1))

/-- The `info` object of the provider dividend payload. -/
structure DivInfo where
  dividendRate : Option ℚ
  trailingAnnualDividendYield : Option ℚ
  currentPrice : Option ℚ
deriving Repr, DecidableEq

/-- One historical dividend payment of the provider payload. Dates are
millisecond timestamps; `none` stands for an absent field. -/
structure DivPoint where
  date : Option ℤ
  exDate : Option ℤ
  amount : Option ℚ
  value : Option ℚ
deriving Repr, DecidableEq

/-- The `dividends` field of the payload: absent, present but not an
array, or an array of payments. -/
inductive HistField where
  | absent
  | nonArray
  | arr (l : List DivPoint)
deriving Repr, DecidableEq

/-- The provider dividend payload (`response.data`). -/
structure DivData where
  info : Option DivInfo
  dividends : HistField
deriving Repr, DecidableEq

/-- Outcome of the dividend fetch: a thrown error (timeout, network,
non-2xx), a falsy `response.data`, or a payload. -/
inductive FetchResult where
  | error
  | noData
  | data (d : DivData)
deriving Repr, DecidableEq

/-- The resolution method that produced an estimate; `none` is the
everything-failed default of the source. -/
inductive Method where
  | declaredRate
  | trailingYield
  | outlierFilteredHistory
  | quarterlyFallback
  | none
deriving Repr, DecidableEq

/-- `divData.info || {}`. -/
def getInfo (i : Option DivInfo) : DivInfo :=
  i.getD ⟨Option.none, Option.none, Option.none⟩

/-- `div.date || div.exDate` (a zero timestamp is falsy). -/
def jsDateOr (a b : Option ℤ) : Option ℤ :=
  match a with
  | some t => if t = 0 then b else some t
  | none => b

/-- The trailing-window test `new Date(div.date || div.exDate) > oneYearAgo`;
an unparsable date (Invalid Date) compares false. -/
def inTrailingYear (oneYearAgo : ℤ) (d : DivPoint) : Bool :=
  match jsDateOr d.date d.exDate with
  | some t => oneYearAgo < t
  | none => false

/-- `parseFloat(div.amount || div.value || 0)`. -/
def amountOf (d : DivPoint) : ℚ :=
  jsNumOr d.amount (jsNumOr d.value 0)

/-- The amounts of the payments dated inside the trailing 12 months. -/
def lastYearAmounts (oneYearAgo : ℤ) (l : List DivPoint) : List ℚ :=
  (l.filter (inTrailingYear oneYearAgo)).map amountOf

/-- The IQR outlier filter of method 3: keep the amounts inside
`[Q1 - 1.5 IQR, Q3 + 1.5 IQR]`. -/
def iqrFilter (vals : List ℚ) : List ℚ :=
  let q1 := percentile vals 25
  let q3 := percentile vals 75
  let iqr := q3 - q1
  let lowerBound := q1 - 3/2 * iqr
  let upperBound := q3 + 3/2 * iqr
  vals.filter (fun d => lowerBound ≤ d ∧ d ≤ upperBound)

/-- Method 3 of the estimator: with at least 2 trailing-window amounts,
the rounded sum of the IQR-filtered amounts (when any survive). -/
def method3 (vals : List ℚ) : Option ℚ :=
  if 2 ≤ vals.length then
    let regularDivs := iqrFilter vals
    if 0 < regularDivs.length then some (round4 regularDivs.sum)
    else Option.none
  else Option.none

/-- `dividends.slice(-4)` mapped through the amount parser. -/
def last4Amounts (l : List DivPoint) : List ℚ :=
  (l.drop (l.length - 4)).map amountOf

/-- Method 4 of the estimator: last four payments, drop any at or above
2.5 times their median, and annualize when at least 3 survive; otherwise
the final default 0 with method `none`. -/
def method4 (l : List DivPoint) : ℚ × Method :=
  let last4 := last4Amounts l
  let medianVal := percentile last4 50
  let regularVals := last4.filter (fun d => d < medianVal * (5/2))
  if 3 ≤ regularVals.length then
    (round4 (regularVals.sum * (4 / (regularVals.length : ℚ))), .quarterlyFallback)
  else (0, .none)

/-- The guard of method 1: `info.dividendRate && info.dividendRate > 0`. -/
def declaredRateGuard (i : DivInfo) : Bool :=
  truthyQ i.dividendRate && decide (0 < jsNumOr i.dividendRate 0)

/-- Method 2: under
`info.trailingAnnualDividendYield && info.currentPrice && info.currentPrice > 0`,
the product of yield and price when it is positive. -/
def trailingDividend (i : DivInfo) : Option ℚ :=
  if truthyQ i.trailingAnnualDividendYield && truthyQ i.currentPrice
      && decide (0 < jsNumOr i.currentPrice 0) then
    let t := jsNumOr i.trailingAnnualDividendYield 0 * jsNumOr i.currentPrice 0
    if 0 < t then some t else Option.none
  else Option.none

/-- `calculateRegularDividend`, with the branch that produced the result
recorded as a `Method` tag.  `oneYearAgo` is the millisecond timestamp of
the trailing-window cutoff computed from the current time. -/
def calculateRegularDividendM (oneYearAgo : ℤ) (res : FetchResult) : ℚ × Method :=
  match res with
  | .error => (0, .none)
  | .noData => (0, .none)
  | .data divData =>
    let info := getInfo divData.info
    if declaredRateGuard info then (jsNumOr info.dividendRate 0, .declaredRate)
    else
      match trailingDividend info with
      | some t => (t, .trailingYield)
      | none =>
        match divData.dividends with
        | .arr dividends =>
          if 4 ≤ dividends.length then
            match method3 (lastYearAmounts oneYearAgo dividends) with
            | some v => (v, .outlierFilteredHistory)
            | none => method4 dividends
          else (0, .none)
        | _ => (0, .none)

/-- The numeric result of `calculateRegularDividend`. -/
def calculateRegularDividend (oneYearAgo : ℤ) (res : FetchResult) : ℚ :=
  (calculateRegularDividendM oneYearAgo res).1

end DividendsRoute

namespace CurrencyConverter

/-!
Embedding of `src/utils/currencyConverter.js`: the shared in-process
exchange-rate cache with its single `lastUpdate` timestamp, the static
fallback table, `getExchangeRate` and `convertToDKK`.  The network fetch
is passed in as an explicit `FetchOutcome`; time is the explicit `now`
millisecond timestamp.
-/

/-- `CACHE_DURATION`: one hour in milliseconds. -/
def CACHE_DURATION : ℤ := 3600000

/-- The static fallback table `FALLBACK_RATES`. -/
def FALLBACK_RATES : List (String × ℚ) :=
  [("DKK", 1), ("USD", 68/10), ("EUR", 75/10), ("GBP", 85/10),
   ("SEK", 65/100), ("NOK", 65/100), ("CHF", 76/10)]

/-- The module-level cache object `exchangeRateCache`: a per-code map of
stored rates (a stored rate can be the `undefined` value, written `none`)
and one shared `lastUpdate` timestamp. -/
structure RateCache where
  rates : List (String × Option ℚ)
  lastUpdate : ℤ
deriving Repr, DecidableEq

/-- Property read `exchangeRateCache.rates[c]`: `none` when the key is
absent, otherwise the stored (possibly `undefined`) value. -/
def lookupRate (rates : List (String × Option ℚ)) (c : String) : Option (Option ℚ) :=
  rates.lookup c

/-- Property write `exchangeRateCache.rates[c] = v`. -/
def setRate (rates : List (String × Option ℚ)) (c : String) (v : Option ℚ) :
    List (String × Option ℚ) :=
  (c, v) :: rates.eraseP (fun p => p.1 = c)

/-- Outcome of the exchange-rate request: either the axios promise
rejects (timeout, network error, non-2xx status), or it resolves with a
`response.data.rate` field that may be absent or zero (`none` / `some 0`
are both falsy). -/
inductive FetchOutcome where
  | fetchErr
  | fetchOk (rateField : Option ℚ)
deriving Repr, DecidableEq

/-- Truthiness of the cache-hit test
`exchangeRateCache.rates[fromCurrency]`: a present, non-zero stored
number. -/
def cachedTruthy (cache : RateCache) (c : String) : Bool :=
  match lookupRate cache.rates c with
  | some (some r) => r ≠ 0
  | _ => false

/-- `getExchangeRate(fromCurrency)`: returns the rate (possibly the
`undefined` value) together with the updated cache state. -/
def getExchangeRate (fromCurrency : String) (cache : RateCache) (now : ℤ)
    (outcome : FetchOutcome) : Option ℚ × RateCache :=
  if fromCurrency = "" ∨ fromCurrency = "DKK" then (some 1, cache)
  else if now - CACHE_DURATION < cache.lastUpdate ∧ cachedTruthy cache fromCurrency then
    ((lookupRate cache.rates fromCurrency).getD none, cache)
  else
    match outcome with
    | .fetchOk rateField =>
      let rate : Option ℚ :=
        if truthyQ rateField then rateField else FALLBACK_RATES.lookup fromCurrency
      (rate, ⟨setRate cache.rates fromCurrency rate, now⟩)
    | .fetchErr =>
      let fallbackRate : ℚ := (FALLBACK_RATES.lookup fromCurrency).getD 1
      (some fallbackRate, ⟨setRate cache.rates fromCurrency (some fallbackRate), now⟩)

/-- `convertToDKK(amount, fromCurrency)` of the converter utility:
returns the converted amount (possibly `NaN`) and the updated cache. -/
def convertToDKK (amount : Option ℚ) (fromCurrency : String) (cache : RateCache)
    (now : ℤ) (outcome : FetchOutcome) : Option ℚ × RateCache :=
  if amount = none ∨ amount = some 0 ∨ jsNumOr amount 0 < 0 then (some 0, cache)
  else
    let r := getExchangeRate fromCurrency cache now outcome
    (jsRound2 (jsMul amount r.1), r.2)

end CurrencyConverter

namespace PortfolioRoute

/-!
Embedding of the portfolio route version whose enrichment emits the
`...DKK` field names (the version the summary and allocation handlers of
the same file live in).  The exchange-rate resolution of
`convertToDKK` is abstracted by a per-currency rate map `rateOf`, which
is what `getExchangeRate` produces for each code during the request, and
the batch price response by `priceOf`.
-/

/-- A stored holding, as spread by `stock.toObject()`. -/
structure Stock where
  ticker : String
  shares : ℚ
  buyPrice : ℚ
  currency : String
deriving Repr, DecidableEq

/-- The converter guard and multiplication of `convertToDKK`, with the
per-request rate map substituted for the cache lookup. -/
def convDKK (rateOf : String → ℚ) (amount : ℚ) (currency : String) : ℚ :=
  if amount = 0 ∨ amount < 0 then 0
  else round2 (amount * rateOf currency)

/-- An enriched position as returned by this version of
`enrichPortfolioWithPrices`.  The fields `currentValue` and
`currentPrice` are NOT set by this version (it sets `currentValueDKK`
and `currentPriceDKK` instead); they are carried here as the value an
object property read yields on them, namely `undefined` (`none`), which
is what the summary and allocation handlers of the same file read. -/
structure Enriched where
  ticker : String
  shares : ℚ
  buyPrice : ℚ
  currency : String
  originalPrice : ℚ
  originalBuyPrice : ℚ
  originalCurrency : String
  currentPriceDKK : ℚ
  buyPriceDKK : ℚ
  costDKK : ℚ
  currentValueDKK : ℚ
  gainDKK : ℚ
  gainPercent : ℚ
  currentValue : Option ℚ
  currentPrice : Option ℚ
deriving Repr, DecidableEq

/-- The per-holding body of `enrichPortfolioWithPrices` (success path of
the batch price request): `priceData[stock.ticker]?.price || 0`, DKK
conversion of buy and current price, and the derived cost, value, gain
and gain percent. -/
def enrichStock (rateOf : String → ℚ) (priceOf : String → Option ℚ) (s : Stock) :
    Enriched :=
  let currentPrice := jsNumOr (priceOf s.ticker) 0
  let buyPriceDKK := convDKK rateOf s.buyPrice s.currency
  let currentPriceDKK := convDKK rateOf currentPrice s.currency
  let cost := buyPriceDKK * s.shares
  let currentValue := currentPriceDKK * s.shares
  let gain := currentValue - cost
  let gainPercent := if 0 < cost then round2 (gain / cost * 100) else 0
  { ticker := s.ticker
    shares := s.shares
    buyPrice := s.buyPrice
    currency := s.currency
    originalPrice := currentPrice
    originalBuyPrice := s.buyPrice
    originalCurrency := s.currency
    currentPriceDKK := round2 currentPriceDKK
    buyPriceDKK := round2 buyPriceDKK
    costDKK := round2 cost
    currentValueDKK := round2 currentValue
    gainDKK := round2 gain
    gainPercent := gainPercent
    currentValue := none
    currentPrice := none }

/-- `enrichPortfolioWithPrices` maps the per-holding body over the
holdings. -/
def enrichPortfolioWithPrices (rateOf : String → ℚ) (priceOf : String → Option ℚ)
    (stocks : List Stock) : List Enriched :=
  stocks.map (enrichStock rateOf priceOf)

/-- The aggregate object of the portfolio summary handler. -/
structure Summary where
  totalCost : ℚ
  totalValue : Option ℚ
  totalGain : Option ℚ
  gainPercent : Option ℚ
  holdingsCount : ℕ
deriving Repr, DecidableEq

/-- The summary handler body: `totalCost` sums `stock.buyPrice *
stock.shares` over the enriched positions, `totalValue` sums the
`stock.currentValue` property reads, `totalGain` is their difference and
`gainPercent` is guarded by `totalCost > 0`. -/
def portfolioSummary (enriched : List Enriched) : Summary :=
  let totalCost := (enriched.map (fun st => st.buyPrice * st.shares)).sum
  let totalValue := enriched.foldl (fun sum st => jsAdd sum st.currentValue) (some 0)
  let totalGain := jsSub totalValue (some totalCost)
  let gainPercent :=
    if 0 < totalCost then jsRound2 (jsMul (jsDiv totalGain (some totalCost)) (some 100))
    else some 0
  { totalCost := round2 totalCost
    totalValue := jsRound2 totalValue
    totalGain := jsRound2 totalGain
    gainPercent := gainPercent
    holdingsCount := enriched.length }

/-- An entry of the allocation handler response. -/
structure AllocItem where
  ticker : String
  value : Option ℚ
  shares : ℚ
  buyPrice : ℚ
  currentPrice : Option ℚ
  percentage : Option ℚ
deriving Repr, DecidableEq

/-- Numeric coercion of a percentage for the sort comparator
`(a, b) => b.percentage - a.percentage` (every percentage produced by
the handler is a present number, so the coercion default is never the
decisive case). -/
def percKey (it : AllocItem) : ℚ := (it.percentage).getD 0

/-- The allocation handler body: builds the items with
`value: stock.currentValue` (a property read), fills each percentage
under the `totalValue > 0` guard, and stable-sorts by descending
percentage. -/
def allocationHandler (enriched : List Enriched) : List AllocItem :=
  let allocation := enriched.map (fun st =>
    { ticker := st.ticker
      value := st.currentValue
      shares := st.shares
      buyPrice := st.buyPrice
      currentPrice := st.currentPrice
      percentage := some 0 : AllocItem })
  let totalValue := allocation.foldl (fun sum it => jsAdd sum it.value) (some 0)
  let filled := allocation.map (fun it =>
    { it with percentage :=
        if jsGtZero totalValue then jsRound2 (jsMul (jsDiv it.value totalValue) (some 100))
        else some 0 })
  filled.insertionSort (fun a b => percKey b < percKey a)

end PortfolioRoute

/-! Concrete inputs used by witnesses and counterexamples. -/

/-- Nine trailing-year payments: eight regular payments of 1 and one
special payment of 25, all dated after the cutoff 0. -/
def exampleHistory : List DividendsRoute.DivPoint :=
  [⟨some 1, none, some 1, none⟩, ⟨some 2, none, some 1, none⟩,
   ⟨some 3, none, some 1, none⟩, ⟨some 4, none, some 1, none⟩,
   ⟨some 5, none, some 1, none⟩, ⟨some 6, none, some 1, none⟩,
   ⟨some 7, none, some 1, none⟩, ⟨some 8, none, some 1, none⟩,
   ⟨some 9, none, some 25, none⟩]

/-- Payload for the outlier-filtered-history witness: no info object at
all, only the nine-payment history. -/
def exampleOutlierData : DividendsRoute.DivData :=
  ⟨none, .arr exampleHistory⟩

/-- Payload for the declared-rate witness: a declared forward rate of 4
together with a history that the estimator must ignore. -/
def exampleDeclaredData : DividendsRoute.DivData :=
  ⟨some ⟨some 4, some (1/10), some 50⟩, .arr exampleHistory⟩

/-- Four old payments of 1, 1, 1 and 30, all dated before the trailing
cutoff 100, for the quarterly-fallback witness. -/
def exampleOldHistory : List DividendsRoute.DivPoint :=
  [⟨some 1, none, some 1, none⟩, ⟨some 2, none, some 1, none⟩,
   ⟨some 3, none, some 30, none⟩, ⟨some 4, none, some 1, none⟩]

/-- Payload for the quarterly-fallback witness. -/
def exampleQuarterlyData : DividendsRoute.DivData :=
  ⟨none, .arr exampleOldHistory⟩

/-- The USD holding of the valuation example: 10 shares bought at 100. -/
def exampleStock : PortfolioRoute.Stock :=
  ⟨"AAPL", 10, 100, "USD"⟩

/-- Rate map with USD at 6.5 (and 1 elsewhere). -/
def exampleRateOf : String → ℚ :=
  fun c => if c = "USD" then 13/2 else 1

/-- Batch price data quoting the example holding at 110. -/
def examplePriceOf : String → Option ℚ :=
  fun t => if t = "AAPL" then some 110 else none

/-- Two DKK holdings whose enriched DKK values are 700 and 300, for the
allocation claim. -/
def exampleAllocStocks : List PortfolioRoute.Stock :=
  [⟨"AAA", 1, 700, "DKK"⟩, ⟨"BBB", 1, 300, "DKK"⟩]

/-- Prices quoting the two allocation holdings at their buy prices. -/
def exampleAllocPriceOf : String → Option ℚ :=
  fun t => if t = "AAA" then some 700 else if t = "BBB" then some 300 else none

/-- All-ones rate map (both allocation holdings are DKK). -/
def exampleUnitRateOf : String → ℚ := fun _ => 1

/-- All numeric content of a dividend fetch result is non-negative:
every present declared rate, trailing yield, current price, historical
amount and historical value is at least 0. -/
def NonNegInput : DividendsRoute.FetchResult → Prop
  | .error => True
  | .noData => True
  | .data dd =>
      0 ≤ (DividendsRoute.getInfo dd.info).dividendRate.getD 0
      ∧ 0 ≤ (DividendsRoute.getInfo dd.info).trailingAnnualDividendYield.getD 0
      ∧ 0 ≤ (DividendsRoute.getInfo dd.info).currentPrice.getD 0
      ∧ (match dd.dividends with
         | .arr l => ∀ d ∈ l, 0 ≤ d.amount.getD 0 ∧ 0 ≤ d.value.getD 0
         | _ => True)

/-!
## Supporting lemmas

Bridging the executable floor and ceiling to the order-theoretic ones,
and basic facts about half-up rounding, sorted access and the
percentile interpolation that the claim proofs rely on.
-/

theorem jsFloor_eq_intFloor (q : ℚ) : jsFloor q = ⌊q⌋ := by
  rw [jsFloor, Rat.floor_def', Rat.floor_def]

theorem jsCeil_eq_intCeil (q : ℚ) : jsCeil q = ⌈q⌉ := by
  by_cases h : q.den = 1
  · have hq : ((q.num : ℚ)) = q := Rat.coe_int_num_of_den_eq_one h
    have h1 : jsCeil q = q.num := by
      rw [jsCeil, Rat.ceil]
      simp [h]
    rw [h1]
    conv_rhs => rw [← hq]
    rw [Int.ceil_intCast]
  · have h1 : jsCeil q = ⌊q⌋ + 1 := by
      rw [jsCeil, Rat.ceil, Rat.floor_def]
      simp [h]
    have hne : ((⌊q⌋ : ℚ)) ≠ q := by
      intro he
      exact h (by rw [← he]; exact Rat.den_intCast ⌊q⌋)
    have hlt : ((⌊q⌋ : ℚ)) < q := lt_of_le_of_ne (Int.floor_le q) hne
    have hup : (⌊q⌋ : ℚ) < (⌈q⌉ : ℚ) := lt_of_lt_of_le hlt (Int.le_ceil q)
    have h2 : ⌊q⌋ + 1 ≤ ⌈q⌉ := by exact_mod_cast hup
    exact h1.trans (le_antisymm h2 (Int.ceil_le_floor_add_one q))

theorem jsFixed_nonneg {dp : ℕ} {q : ℚ} (hq : 0 ≤ q) : 0 ≤ jsFixed dp q := by
  rw [jsFixed, jsFloor_eq_intFloor]
  have hpow : (0 : ℚ) < (10 : ℚ) ^ dp := by positivity
  apply div_nonneg _ (le_of_lt hpow)
  have : (0 : ℤ) ≤ ⌊q * (10 : ℚ) ^ dp + 1/2⌋ := by
    apply Int.floor_nonneg.mpr
    have : (0 : ℚ) ≤ q * (10 : ℚ) ^ dp := mul_nonneg hq (le_of_lt hpow)
    linarith
  exact_mod_cast this

theorem round4_nonneg {q : ℚ} (hq : 0 ≤ q) : 0 ≤ round4 q := jsFixed_nonneg hq

theorem round2_round2 (q : ℚ) : round2 (round2 q) = round2 q := by
  rw [round2, jsFixed, jsFloor_eq_intFloor]
  set k : ℤ := ⌊q * (10 : ℚ) ^ 2 + 1/2⌋ with hk
  rw [round2, jsFixed, jsFloor_eq_intFloor]
  have h1 : ((k : ℚ)) / (10 : ℚ) ^ 2 * (10 : ℚ) ^ 2 + 1/2 = (k : ℚ) + 1/2 := by
    field_simp
  rw [h1]
  have h2 : ⌊(k : ℚ) + 1/2⌋ = k := by
    rw [Int.floor_eq_iff]
    constructor
    · linarith
    · linarith
  rw [h2]

theorem sorted_getD_mono {s : List ℚ} (hs : s.Sorted (· ≤ ·)) {i j : ℕ}
    (hij : i ≤ j) (hj : j < s.length) : s.getD i 0 ≤ s.getD j 0 := by
  have hi : i < s.length := lt_of_le_of_lt hij hj
  rw [List.getD_eq_getElem _ _ hi, List.getD_eq_getElem _ _ hj]
  have h := hs.rel_get_of_le (a := ⟨i, hi⟩) (b := ⟨j, hj⟩) (by exact_mod_cast hij)
  simpa [List.get_eq_getElem] using h

theorem getD_mem {s : List ℚ} {i : ℕ} (hi : i < s.length) : s.getD i 0 ∈ s := by
  rw [List.getD_eq_getElem _ _ hi]
  exact List.getElem_mem hi

theorem interpAt_ge {s : List ℚ} (hs : s.Sorted (· ≤ ·)) {x : ℚ}
    (hxn : (jsCeil x).toNat < s.length) :
    s.getD (jsFloor x).toNat 0 ≤ interpAt s x := by
  have hfc : (jsFloor x).toNat ≤ (jsCeil x).toNat := by
    rw [jsFloor_eq_intFloor, jsCeil_eq_intCeil]
    exact Int.toNat_le_toNat (Int.floor_le_ceil x)
  have hw0 : 0 ≤ x - jsFloor x := by
    rw [jsFloor_eq_intFloor]
    have := Int.floor_le x
    linarith
  have hab : s.getD (jsFloor x).toNat 0 ≤ s.getD (jsCeil x).toNat 0 :=
    sorted_getD_mono hs hfc hxn
  by_cases hlu : (jsFloor x).toNat = (jsCeil x).toNat
  · simp only [interpAt, if_pos hlu]
    exact le_refl _
  · simp only [interpAt, if_neg hlu]
    nlinarith [mul_nonneg (sub_nonneg.mpr hab) hw0]

theorem interpAt_le {s : List ℚ} (hs : s.Sorted (· ≤ ·)) {x : ℚ}
    (hxn : (jsCeil x).toNat < s.length) :
    interpAt s x ≤ s.getD (jsCeil x).toNat 0 := by
  have hfc : (jsFloor x).toNat ≤ (jsCeil x).toNat := by
    rw [jsFloor_eq_intFloor, jsCeil_eq_intCeil]
    exact Int.toNat_le_toNat (Int.floor_le_ceil x)
  have hw1 : x - jsFloor x ≤ 1 := by
    rw [jsFloor_eq_intFloor]
    have := Int.lt_floor_add_one x
    linarith
  have hab : s.getD (jsFloor x).toNat 0 ≤ s.getD (jsCeil x).toNat 0 :=
    sorted_getD_mono hs hfc hxn
  by_cases hlu : (jsFloor x).toNat = (jsCeil x).toNat
  · simp only [interpAt, if_pos hlu]
    rw [hlu]
  · simp only [interpAt, if_neg hlu]
    nlinarith [mul_nonneg (sub_nonneg.mpr hab) (sub_nonneg.mpr hw1)]

theorem percentile_eq_interpAt {arr : List ℚ} (h : arr ≠ []) (p : ℚ) :
    DividendsRoute.percentile arr p
      = interpAt (arr.insertionSort (· ≤ ·)) (p / 100 * ((arr.length : ℚ) - 1)) := by
  simp only [DividendsRoute.percentile, if_neg h, List.length_insertionSort]

/-- Between the 25th and the 75th percentile of at least two values there
always lies an actual data point once the bounds are widened by 1.5 IQR,
so the IQR outlier filter of the dividend estimator never discards
everything. -/
theorem exists_mem_iqr_window (l : List ℚ) (h2 : 2 ≤ l.length) :
    ∃ x ∈ l,
      DividendsRoute.percentile l 25
          - 3/2 * (DividendsRoute.percentile l 75 - DividendsRoute.percentile l 25) ≤ x
      ∧ x ≤ DividendsRoute.percentile l 75
          + 3/2 * (DividendsRoute.percentile l 75 - DividendsRoute.percentile l 25) := by
  have hne : l ≠ [] := by
    intro h
    rw [h] at h2
    simp at h2
  have hs : (l.insertionSort (· ≤ ·)).Sorted (· ≤ ·) := List.sorted_insertionSort _ l
  have hperm : List.Perm (l.insertionSort (· ≤ ·)) l := List.perm_insertionSort _ l
  have hlen : (l.insertionSort (· ≤ ·)).length = l.length := List.length_insertionSort _ l
  have hq1 := percentile_eq_interpAt hne 25
  have hq3 := percentile_eq_interpAt hne 75
  set s := l.insertionSort (· ≤ ·) with hsdef
  rcases Nat.lt_or_ge l.length 3 with h3 | h3
  · -- exactly two values: direct computation
    have hn2 : l.length = 2 := le_antisymm (Nat.lt_succ_iff.mp h3) h2
    obtain ⟨a, b, hab⟩ := List.length_eq_two.mp (hlen.trans hn2)
    have haleb : a ≤ b := by
      have h' := hs
      rw [hab] at h'
      exact (List.sorted_cons.mp h').1 b (by simp)
    have hcast : ((l.length : ℚ) - 1) = 1 := by rw [hn2]; norm_num
    have h25 : (25 : ℚ) / 100 * ((l.length : ℚ) - 1) = 1/4 := by rw [hcast]; norm_num
    have h75 : (75 : ℚ) / 100 * ((l.length : ℚ) - 1) = 3/4 := by rw [hcast]; norm_num
    have e1 : interpAt [a, b] (1/4) = a * (3/4) + b * (1/4) := by
      have hf : jsFloor (1/4 : ℚ) = 0 := by decide
      have hc : jsCeil (1/4 : ℚ) = 1 := by decide
      rw [interpAt]
      simp only [hf, hc]
      norm_num
    have e3 : interpAt [a, b] (3/4) = a * (1/4) + b * (3/4) := by
      have hf : jsFloor (3/4 : ℚ) = 0 := by decide
      have hc : jsCeil (3/4 : ℚ) = 1 := by decide
      rw [interpAt]
      simp only [hf, hc]
      norm_num
    refine ⟨b, hperm.mem_iff.mp (by rw [hab]; simp), ?_, ?_⟩
    · rw [hq1, hq3, h25, h75, hab, e1, e3]
      linarith
    · rw [hq1, hq3, h25, h75, hab, e1, e3]
      linarith
  · -- at least three values: a sorted element sits between Q1 and Q3
    have h1le : 1 ≤ l.length := by omega
    have hcast : ((l.length : ℚ) - 1) = ((l.length - 1 : ℕ) : ℚ) := by
      rw [Nat.cast_sub h1le]
      norm_num
    set m : ℕ := l.length - 1 with hmdef
    have hm2 : 2 ≤ m := by omega
    have hm2q : (2 : ℚ) ≤ (m : ℚ) := by exact_mod_cast hm2
    have h25 : (25 : ℚ) / 100 * ((l.length : ℚ) - 1) = (m : ℚ) / 4 := by
      rw [hcast]
      ring
    have h75 : (75 : ℚ) / 100 * ((l.length : ℚ) - 1) = 3 * (m : ℚ) / 4 := by
      rw [hcast]
      ring
    have hmlt : m < s.length := by omega
    have hu25lt : (jsCeil ((m : ℚ) / 4)).toNat < s.length := by
      have hle : jsCeil ((m : ℚ) / 4) ≤ (m : ℤ) := by
        rw [jsCeil_eq_intCeil]
        have : ((m : ℚ) / 4) ≤ ((m : ℤ) : ℚ) := by push_cast; linarith
        calc ⌈(m : ℚ) / 4⌉ ≤ ⌈((m : ℤ) : ℚ)⌉ := Int.ceil_le_ceil this
        _ = (m : ℤ) := Int.ceil_intCast _
      have := Int.toNat_le_toNat hle
      simpa using lt_of_le_of_lt this hmlt
    have hc75lt : (jsCeil (3 * (m : ℚ) / 4)).toNat < s.length := by
      have hle : jsCeil (3 * (m : ℚ) / 4) ≤ (m : ℤ) := by
        rw [jsCeil_eq_intCeil]
        have : (3 * (m : ℚ) / 4) ≤ ((m : ℤ) : ℚ) := by push_cast; linarith
        calc ⌈3 * (m : ℚ) / 4⌉ ≤ ⌈((m : ℤ) : ℚ)⌉ := Int.ceil_le_ceil this
        _ = (m : ℤ) := Int.ceil_intCast _
      have := Int.toNat_le_toNat hle
      simpa using lt_of_le_of_lt this hmlt
    have hl75lt : (jsFloor (3 * (m : ℚ) / 4)).toNat < s.length := by
      have hle : jsFloor (3 * (m : ℚ) / 4) ≤ jsCeil (3 * (m : ℚ) / 4) := by
        rw [jsFloor_eq_intFloor, jsCeil_eq_intCeil]
        exact Int.floor_le_ceil _
      exact lt_of_le_of_lt (Int.toNat_le_toNat hle) hc75lt
    have hkey : (jsCeil ((m : ℚ) / 4)).toNat ≤ (jsFloor (3 * (m : ℚ) / 4)).toNat := by
      apply Int.toNat_le_toNat
      rw [jsCeil_eq_intCeil, jsFloor_eq_intFloor]
      apply Int.le_floor.mpr
      have hcl := Int.ceil_lt_add_one ((m : ℚ) / 4)
      linarith
    have hb1 : interpAt s ((m : ℚ) / 4) ≤ s.getD (jsCeil ((m : ℚ) / 4)).toNat 0 :=
      interpAt_le hs hu25lt
    have hb3 : s.getD (jsFloor (3 * (m : ℚ) / 4)).toNat 0 ≤ interpAt s (3 * (m : ℚ) / 4) :=
      interpAt_ge hs hc75lt
    have hmid : s.getD (jsCeil ((m : ℚ) / 4)).toNat 0
        ≤ s.getD (jsFloor (3 * (m : ℚ) / 4)).toNat 0 :=
      sorted_getD_mono hs hkey hl75lt
    refine ⟨s.getD (jsCeil ((m : ℚ) / 4)).toNat 0,
      hperm.mem_iff.mp (getD_mem hu25lt), ?_, ?_⟩
    · rw [hq1, hq3, h25, h75]
      linarith
    · rw [hq1, hq3, h25, h75]
      linarith

/-- The IQR filter of method 3 keeps at least one value whenever it is
fed at least two values. -/
theorem iqrFilter_ne_nil {l : List ℚ} (h2 : 2 ≤ l.length) :
    DividendsRoute.iqrFilter l ≠ [] := by
  obtain ⟨x, hx, hlb, hub⟩ := exists_mem_iqr_window l h2
  apply List.ne_nil_of_mem (a := x)
  rw [DividendsRoute.iqrFilter]
  refine List.mem_filter.mpr ⟨hx, ?_⟩
  simp only [decide_eq_true_eq]
  exact ⟨hlb, hub⟩

example : round2 (105/100 * 2) = 21/10 := by decide

example : DividendsRoute.percentile [1,1,1,1,1,1,1,1,25] 25 = 1 := by decide

example : DividendsRoute.percentile [1,1,1,1,1,1,1,1,25] 75 = 1 := by decide

example : DividendsRoute.iqrFilter [1,1,1,1,1,1,1,1,25] = [1,1,1,1,1,1,1,1] := by decide

example : DividendsRoute.percentile [1,2] 25 = 5/4 := by decide

/-! ## Dividend estimator: supporting lemmas -/

theorem declaredRateGuard_eq_false {info : DividendsRoute.DivInfo}
    (h : ∀ r, info.dividendRate = some r → r ≤ 0) :
    DividendsRoute.declaredRateGuard info = false := by
  cases hr : info.dividendRate with
  | none => simp [DividendsRoute.declaredRateGuard, hr, truthyQ]
  | some r =>
    have hr0 := h r hr
    by_cases hrz : r = 0
    · simp [DividendsRoute.declaredRateGuard, hr, truthyQ, hrz]
    · simp [DividendsRoute.declaredRateGuard, hr, truthyQ, jsNumOr, hrz]
      linarith

theorem trailingDividend_eq_none {info : DividendsRoute.DivInfo}
    (h : ∀ y p, info.trailingAnnualDividendYield = some y →
        info.currentPrice = some p → 0 < p → y * p ≤ 0) :
    DividendsRoute.trailingDividend info = none := by
  rw [DividendsRoute.trailingDividend]
  split
  case isTrue hcond =>
    cases hy : info.trailingAnnualDividendYield with
    | none => rw [hy] at hcond; simp [truthyQ] at hcond
    | some y =>
      cases hp : info.currentPrice with
      | none => rw [hp] at hcond; simp [truthyQ] at hcond
      | some p =>
        rw [hy, hp] at hcond
        simp only [truthyQ, jsNumOr, Bool.and_eq_true, decide_eq_true_eq] at hcond
        obtain ⟨⟨hyne, hpne⟩, hppos⟩ := hcond
        have hpne' : p ≠ 0 := by simpa using hpne
        have hyne' : y ≠ 0 := by simpa using hyne
        rw [if_neg hpne'] at hppos
        have hle := h y p hy hp hppos
        simp only [jsNumOr, if_neg hpne', if_neg hyne']
        rw [if_neg (by linarith : ¬(0 : ℚ) < y * p)]
  case isFalse hcond => rfl

theorem trailingDividend_pos {info : DividendsRoute.DivInfo} {t : ℚ}
    (h : DividendsRoute.trailingDividend info = some t) : 0 < t := by
  simp only [DividendsRoute.trailingDividend] at h
  split at h
  · split at h
    case isTrue hpos =>
      injection h with h
      subst h
      exact hpos
    case isFalse => exact absurd h (by simp)
  · exact absurd h (by simp)

theorem amountOf_nonneg {d : DividendsRoute.DivPoint}
    (ha : 0 ≤ d.amount.getD 0) (hv : 0 ≤ d.value.getD 0) :
    0 ≤ DividendsRoute.amountOf d := by
  rw [DividendsRoute.amountOf]
  cases hda : d.amount with
  | none =>
    cases hdv : d.value with
    | none => simp [jsNumOr]
    | some v =>
      rw [hdv] at hv
      simp only [Option.getD] at hv
      by_cases hvz : v = 0 <;> simp [jsNumOr, hvz, hv]
  | some a =>
    rw [hda] at ha
    simp only [Option.getD] at ha
    by_cases haz : a = 0
    · cases hdv : d.value with
      | none => simp [jsNumOr, haz]
      | some v =>
        rw [hdv] at hv
        simp only [Option.getD] at hv
        by_cases hvz : v = 0 <;> simp [jsNumOr, haz, hvz, hv]
    · simp [jsNumOr, haz, ha]

theorem lastYearAmounts_nonneg {l : List DividendsRoute.DivPoint} {oneYearAgo : ℤ}
    (h : ∀ d ∈ l, 0 ≤ d.amount.getD 0 ∧ 0 ≤ d.value.getD 0) :
    ∀ x ∈ DividendsRoute.lastYearAmounts oneYearAgo l, 0 ≤ x := by
  intro x hx
  rw [DividendsRoute.lastYearAmounts] at hx
  obtain ⟨d, hd, rfl⟩ := List.mem_map.mp hx
  have hdl : d ∈ l := (List.mem_filter.mp hd).1
  exact amountOf_nonneg (h d hdl).1 (h d hdl).2

theorem last4Amounts_nonneg {l : List DividendsRoute.DivPoint}
    (h : ∀ d ∈ l, 0 ≤ d.amount.getD 0 ∧ 0 ≤ d.value.getD 0) :
    ∀ x ∈ DividendsRoute.last4Amounts l, 0 ≤ x := by
  intro x hx
  rw [DividendsRoute.last4Amounts] at hx
  obtain ⟨d, hd, rfl⟩ := List.mem_map.mp hx
  have hdl : d ∈ l := List.mem_of_mem_drop hd
  exact amountOf_nonneg (h d hdl).1 (h d hdl).2

theorem method3_nonneg {vals : List ℚ} {v : ℚ} (hvals : ∀ x ∈ vals, 0 ≤ x)
    (hm : DividendsRoute.method3 vals = some v) : 0 ≤ v := by
  rw [DividendsRoute.method3] at hm
  split at hm
  · simp only at hm
    split at hm
    · injection hm with hm
      subst hm
      apply round4_nonneg
      apply List.sum_nonneg
      intro x hx
      simp only [DividendsRoute.iqrFilter] at hx
      exact hvals x (List.mem_filter.mp hx).1
    · exact absurd hm (by simp)
  · exact absurd hm (by simp)

theorem method4_fst_nonneg {l : List DividendsRoute.DivPoint}
    (h : ∀ x ∈ DividendsRoute.last4Amounts l, 0 ≤ x) :
    0 ≤ (DividendsRoute.method4 l).1 := by
  simp only [DividendsRoute.method4]
  split
  · apply round4_nonneg
    apply mul_nonneg
    · apply List.sum_nonneg
      intro x hx
      exact h x (List.mem_filter.mp hx).1
    · positivity
  · exact le_refl 0

/-! ## Claim theorems: dividend estimator -/

/-- Claim C6: whenever the provider payload carries a positive forward
dividend rate, the estimator returns exactly that rate with method
declared-rate, regardless of any trailing yield or history also
present. -/
theorem c6_declared_rate_wins (oneYearAgo : ℤ) (dd : DividendsRoute.DivData) (r : ℚ)
    (hrate : (DividendsRoute.getInfo dd.info).dividendRate = some r) (hr : 0 < r) :
    DividendsRoute.calculateRegularDividendM oneYearAgo (.data dd)
      = (r, DividendsRoute.Method.declaredRate) := by
  have hguard : DividendsRoute.declaredRateGuard (DividendsRoute.getInfo dd.info) = true := by
    simp [DividendsRoute.declaredRateGuard, hrate, truthyQ, jsNumOr, ne_of_gt hr, hr]
  simp [DividendsRoute.calculateRegularDividendM, hguard, hrate, jsNumOr, ne_of_gt hr]

/-- Claim C6 witness: the payload with declared rate 4 (and a full
history present) estimates 4 by the declared-rate method. -/
theorem c6_declared_rate_wins_witness :
    DividendsRoute.calculateRegularDividendM 0 (.data exampleDeclaredData)
      = (4, DividendsRoute.Method.declaredRate) :=
  c6_declared_rate_wins 0 exampleDeclaredData 4 (by decide) (by decide)

/-- Claim C1: with no usable declared rate, no usable trailing yield, at
least 4 historical payments and at least 2 of them inside the trailing
12 months, the estimator returns the 4-decimal rounded sum of the
trailing-window amounts that survive the
`[Q1 - 1.5 IQR, Q3 + 1.5 IQR]` filter, with method
outlier-filtered-history. -/
theorem c1_outlier_filtered_history (oneYearAgo : ℤ) (dd : DividendsRoute.DivData)
    (l : List DividendsRoute.DivPoint)
    (hnorate : ∀ r, (DividendsRoute.getInfo dd.info).dividendRate = some r → r ≤ 0)
    (hnoyield : ∀ y p, (DividendsRoute.getInfo dd.info).trailingAnnualDividendYield = some y →
        (DividendsRoute.getInfo dd.info).currentPrice = some p → 0 < p → y * p ≤ 0)
    (hdiv : dd.dividends = .arr l) (h4 : 4 ≤ l.length)
    (h2 : 2 ≤ (DividendsRoute.lastYearAmounts oneYearAgo l).length) :
    DividendsRoute.calculateRegularDividendM oneYearAgo (.data dd)
      = (round4 (DividendsRoute.iqrFilter (DividendsRoute.lastYearAmounts oneYearAgo l)).sum,
         DividendsRoute.Method.outlierFilteredHistory) := by
  have hguard := declaredRateGuard_eq_false hnorate
  have htrail := trailingDividend_eq_none hnoyield
  have hm3 : DividendsRoute.method3 (DividendsRoute.lastYearAmounts oneYearAgo l)
      = some (round4 (DividendsRoute.iqrFilter
          (DividendsRoute.lastYearAmounts oneYearAgo l)).sum) := by
    simp only [DividendsRoute.method3, if_pos h2]
    rw [if_pos (List.length_pos.mpr (iqrFilter_ne_nil h2))]
  simp [DividendsRoute.calculateRegularDividendM, hguard, htrail, hdiv, h4, hm3]

/-- Claim C1 witness: the trailing-year history 1,1,1,1,1,1,1,1,25 has
the special payment 25 filtered out and estimates 8 by the
outlier-filtered-history method. -/
theorem c1_outlier_filtered_history_witness :
    DividendsRoute.calculateRegularDividendM 0 (.data exampleOutlierData)
      = (8, DividendsRoute.Method.outlierFilteredHistory) := by
  have h := c1_outlier_filtered_history 0 exampleOutlierData exampleHistory
    (by intro r hr; simp [exampleOutlierData, DividendsRoute.getInfo] at hr)
    (by intro y p hy hp hpos; simp [exampleOutlierData, DividendsRoute.getInfo] at hy)
    (by decide) (by decide) (by decide)
  rw [h]
  decide

/-- Claim C7: with no usable declared rate, no usable trailing yield, at
least 4 historical payments but fewer than 2 inside the trailing
12 months, the estimator takes the last 4 payments, discards any at or
above 2.5 times their median, and annualizes the survivors when at
least 3 of the 4 remain; otherwise it estimates 0 with method none. -/
theorem c7_quarterly_fallback (oneYearAgo : ℤ) (dd : DividendsRoute.DivData)
    (l : List DividendsRoute.DivPoint)
    (hnorate : ∀ r, (DividendsRoute.getInfo dd.info).dividendRate = some r → r ≤ 0)
    (hnoyield : ∀ y p, (DividendsRoute.getInfo dd.info).trailingAnnualDividendYield = some y →
        (DividendsRoute.getInfo dd.info).currentPrice = some p → 0 < p → y * p ≤ 0)
    (hdiv : dd.dividends = .arr l) (h4 : 4 ≤ l.length)
    (hwin : (DividendsRoute.lastYearAmounts oneYearAgo l).length < 2) :
    DividendsRoute.calculateRegularDividendM oneYearAgo (.data dd)
      = (if 3 ≤ ((DividendsRoute.last4Amounts l).filter
            (fun d => d < DividendsRoute.percentile (DividendsRoute.last4Amounts l) 50
              * (5/2))).length
         then (round4 (((DividendsRoute.last4Amounts l).filter
                (fun d => d < DividendsRoute.percentile (DividendsRoute.last4Amounts l) 50
                  * (5/2))).sum
              * (4 / ((((DividendsRoute.last4Amounts l).filter
                (fun d => d < DividendsRoute.percentile (DividendsRoute.last4Amounts l) 50
                  * (5/2))).length : ℕ) : ℚ))),
            DividendsRoute.Method.quarterlyFallback)
         else (0, DividendsRoute.Method.none)) := by
  have hguard := declaredRateGuard_eq_false hnorate
  have htrail := trailingDividend_eq_none hnoyield
  have hm3 : DividendsRoute.method3 (DividendsRoute.lastYearAmounts oneYearAgo l)
      = none := by
    simp only [DividendsRoute.method3]
    rw [if_neg (by omega)]
  simp [DividendsRoute.calculateRegularDividendM, hguard, htrail, hdiv, h4, hm3,
    DividendsRoute.method4]

/-- Claim C7 witness: four payments 1, 1, 30, 1 all dated before the
trailing cutoff have the 30 discarded against the median 1, and the
three survivors annualize to 3 x 4/3 = 4 by the quarterly-fallback
method. -/
theorem c7_quarterly_fallback_witness :
    DividendsRoute.calculateRegularDividendM 100 (.data exampleQuarterlyData)
      = (4, DividendsRoute.Method.quarterlyFallback) := by
  have h := c7_quarterly_fallback 100 exampleQuarterlyData exampleOldHistory
    (by intro r hr; simp [exampleQuarterlyData, DividendsRoute.getInfo] at hr)
    (by intro y p hy hp hpos; simp [exampleQuarterlyData, DividendsRoute.getInfo] at hy)
    (by decide) (by decide) (by decide)
  rw [h]
  decide

/-- Claim C10: the estimator is total over every fetch outcome (errors,
missing payloads, non-array histories and absent fields are all mapped
to a number, never an exception), and on inputs whose numeric fields are
all non-negative the estimate is non-negative. -/
theorem c10_estimator_nonneg (oneYearAgo : ℤ) (res : DividendsRoute.FetchResult)
    (h : NonNegInput res) :
    0 ≤ DividendsRoute.calculateRegularDividend oneYearAgo res := by
  cases res with
  | error => simp [DividendsRoute.calculateRegularDividend,
      DividendsRoute.calculateRegularDividendM]
  | noData => simp [DividendsRoute.calculateRegularDividend,
      DividendsRoute.calculateRegularDividendM]
  | data dd =>
    obtain ⟨h1, h2, h3, h4⟩ := h
    rw [DividendsRoute.calculateRegularDividend]
    simp only [DividendsRoute.calculateRegularDividendM]
    split
    case isTrue hg =>
      simp only [DividendsRoute.declaredRateGuard, Bool.and_eq_true,
        decide_eq_true_eq] at hg
      exact le_of_lt hg.2
    case isFalse hg =>
      split
      case h_1 t ht => exact le_of_lt (trailingDividend_pos ht)
      case h_2 =>
        split
        case h_1 l hl =>
          rw [hl] at h4
          have hamts : ∀ x ∈ DividendsRoute.lastYearAmounts oneYearAgo l, 0 ≤ x :=
            lastYearAmounts_nonneg h4
          split
          case isTrue =>
            split
            case h_1 v hv => exact method3_nonneg hamts hv
            case h_2 => exact method4_fst_nonneg (last4Amounts_nonneg h4)
          case isFalse => exact le_refl 0
        case h_2 hne => simp

/-! ## Currency converter: supporting lemmas -/

theorem round2_zero : round2 0 = 0 := by decide

theorem fallback_pos {c : String} {v : ℚ}
    (h : CurrencyConverter.FALLBACK_RATES.lookup c = some v) : 0 < v := by
  simp only [CurrencyConverter.FALLBACK_RATES, List.lookup] at h
  repeat' split at h
  all_goals first
    | (injection h with h; subst h; norm_num)
    | exact absurd h (by simp)

theorem fallback_getD_pos (c : String) :
    0 < (CurrencyConverter.FALLBACK_RATES.lookup c).getD 1 := by
  cases hl : CurrencyConverter.FALLBACK_RATES.lookup c with
  | none => simp
  | some v => simpa using fallback_pos hl

theorem lookup_eraseP_ne {rates : List (String × Option ℚ)} {c c2 : String}
    (h : c2 ≠ c) :
    (rates.eraseP (fun p => p.1 = c)).lookup c2 = rates.lookup c2 := by
  induction rates with
  | nil => simp
  | cons hd tl ih =>
    by_cases hh : hd.1 = c
    · rw [List.eraseP_cons_of_pos (by simpa using hh)]
      have : (c2 == hd.1) = false := by
        simp only [beq_eq_false_iff_ne, ne_eq]
        rw [hh]
        exact h
      simp [List.lookup, this]
    · rw [List.eraseP_cons_of_neg (by simpa using hh)]
      by_cases he : c2 = hd.1
      · simp [List.lookup, he]
      · have : (c2 == hd.1) = false := by simpa using he
        simp [List.lookup, this, ih]

theorem lookupRate_setRate_self (rates : List (String × Option ℚ)) (c : String)
    (v : Option ℚ) :
    CurrencyConverter.lookupRate (CurrencyConverter.setRate rates c v) c = some v := by
  simp [CurrencyConverter.lookupRate, CurrencyConverter.setRate, List.lookup]

theorem lookupRate_setRate_other (rates : List (String × Option ℚ)) {c c2 : String}
    (v : Option ℚ) (h : c2 ≠ c) :
    CurrencyConverter.lookupRate (CurrencyConverter.setRate rates c v) c2
      = CurrencyConverter.lookupRate rates c2 := by
  have hb : (c2 == c) = false := by simpa using h
  simp [CurrencyConverter.lookupRate, CurrencyConverter.setRate, List.lookup, hb,
    lookup_eraseP_ne h]

/-! ## Claim theorems: exchange-rate cache and converter -/

/-- Claim C3 counterexample: a 2xx exchange-rate response without a
usable rate field, for a code absent from the fallback table, makes
`getExchangeRate` return the `undefined` value rather than any table
entry, so the claim that such a lookup yields the (positive) entry of a
default code is false. -/
theorem c3_unknown_code_malformed_cex :
    (CurrencyConverter.getExchangeRate "XYZ" ⟨[], 0⟩ 0
        (.fetchOk none)).1 = none := by decide

/-- Claim C3 (amended): on a cache miss, a thrown fetch failure makes
`getExchangeRate` return the fallback-table entry for the code, 1 for a
code absent from the table (coinciding with the base-currency entry),
and that value is always positive; a 2xx response with a falsy rate
field — absent or zero — falls back to the table entry itself, which is
a positive number exactly when the code is in the table. -/
theorem c3_static_fallback (c : String) (cache : CurrencyConverter.RateCache)
    (now : ℤ) (hc1 : c ≠ "") (hc2 : c ≠ "DKK")
    (hmiss : ¬(now - CurrencyConverter.CACHE_DURATION < cache.lastUpdate
        ∧ CurrencyConverter.cachedTruthy cache c = true)) :
    (CurrencyConverter.getExchangeRate c cache now .fetchErr).1
        = some ((CurrencyConverter.FALLBACK_RATES.lookup c).getD 1)
    ∧ 0 < (CurrencyConverter.FALLBACK_RATES.lookup c).getD 1
    ∧ (CurrencyConverter.getExchangeRate c cache now (.fetchOk none)).1
        = CurrencyConverter.FALLBACK_RATES.lookup c
    ∧ (CurrencyConverter.getExchangeRate c cache now (.fetchOk (some 0))).1
        = CurrencyConverter.FALLBACK_RATES.lookup c
    ∧ ∀ v, CurrencyConverter.FALLBACK_RATES.lookup c = some v → 0 < v := by
  have hbase : ¬(c = "" ∨ c = "DKK") := by
    intro h
    cases h with
    | inl h => exact hc1 h
    | inr h => exact hc2 h
  refine ⟨?_, fallback_getD_pos c, ?_, ?_, fun v hv => fallback_pos hv⟩
  · rw [CurrencyConverter.getExchangeRate.eq_def, if_neg hbase, if_neg hmiss]
  · rw [CurrencyConverter.getExchangeRate.eq_def, if_neg hbase, if_neg hmiss]
    simp [truthyQ]
  · rw [CurrencyConverter.getExchangeRate.eq_def, if_neg hbase, if_neg hmiss]
    simp [truthyQ]

/-- Claim C3 witness: with an empty cache and a network failure, the USD
rate resolves to the static fallback 6.8 and is positive. -/
theorem c3_static_fallback_witness :
    (CurrencyConverter.getExchangeRate "USD" ⟨[], 0⟩ 0 .fetchErr).1 = some (68/10)
    ∧ (0 : ℚ) < 68/10 := by
  have h := c3_static_fallback "USD" ⟨[], 0⟩ 0 (by decide) (by decide) (by decide)
  constructor
  · rw [h.1]
    decide
  · decide

/-- Claim C4 counterexample: the cache keeps one shared timestamp. USD is
stored at time 0; an EUR fetch at 3,500,000 refreshes the shared
timestamp; at time 7,000,000 the USD entry is 7,000,000 ms old — well
past the 3,600,000 ms TTL — yet the call returns the stale cached 6 and
ignores the live rate 5, so per-currency invalidation does not hold. -/
theorem c4_shared_timestamp_cex :
    ((CurrencyConverter.getExchangeRate "USD" ⟨[], 0⟩ 0 (.fetchOk (some 6))).2
        = ⟨[("USD", some 6)], 0⟩)
    ∧ ((CurrencyConverter.getExchangeRate "EUR" ⟨[("USD", some 6)], 0⟩ 3500000
        (.fetchOk (some 7))).2 = ⟨[("EUR", some 7), ("USD", some 6)], 3500000⟩)
    ∧ ((CurrencyConverter.getExchangeRate "USD"
        ⟨[("EUR", some 7), ("USD", some 6)], 3500000⟩ 7000000 (.fetchOk (some 5))).1
        = some 6)
    ∧ CurrencyConverter.CACHE_DURATION < 7000000 - 0 := by decide

/-- Claim C4 (amended): rate entries are keyed per currency code, but
the cache carries a single shared `lastUpdate` timestamp.  A call for a
non-base code returns the stored entry exactly when the shared timestamp
is younger than the TTL and the entry is truthy — even if the entry
itself is older than the TTL; otherwise the call resolves a fresh value,
stores it under the code without touching other codes, and refreshes the
shared timestamp. -/
theorem c4_cache_semantics (c : String) (cache : CurrencyConverter.RateCache)
    (now : ℤ) (out : CurrencyConverter.FetchOutcome)
    (hc1 : c ≠ "") (hc2 : c ≠ "DKK") :
    ((now - CurrencyConverter.CACHE_DURATION < cache.lastUpdate
        ∧ CurrencyConverter.cachedTruthy cache c = true) →
      CurrencyConverter.getExchangeRate c cache now out
        = ((CurrencyConverter.lookupRate cache.rates c).getD none, cache))
    ∧ (¬(now - CurrencyConverter.CACHE_DURATION < cache.lastUpdate
        ∧ CurrencyConverter.cachedTruthy cache c = true) →
      ((CurrencyConverter.getExchangeRate c cache now out).2.lastUpdate = now
        ∧ CurrencyConverter.lookupRate
            (CurrencyConverter.getExchangeRate c cache now out).2.rates c
            = some (CurrencyConverter.getExchangeRate c cache now out).1
        ∧ ∀ c2, c2 ≠ c →
            CurrencyConverter.lookupRate
              (CurrencyConverter.getExchangeRate c cache now out).2.rates c2
              = CurrencyConverter.lookupRate cache.rates c2)) := by
  have hbase : ¬(c = "" ∨ c = "DKK") := by
    intro h
    cases h with
    | inl h => exact hc1 h
    | inr h => exact hc2 h
  constructor
  · intro hhit
    rw [CurrencyConverter.getExchangeRate.eq_def, if_neg hbase, if_pos hhit]
  · intro hmiss
    rw [CurrencyConverter.getExchangeRate.eq_def, if_neg hbase, if_neg hmiss]
    cases out with
    | fetchOk rateField =>
      refine ⟨rfl, ?_, ?_⟩
      · exact lookupRate_setRate_self _ _ _
      · intro c2 hc
        exact lookupRate_setRate_other _ _ hc
    | fetchErr =>
      refine ⟨rfl, ?_, ?_⟩
      · exact lookupRate_setRate_self _ _ _
      · intro c2 hc
        exact lookupRate_setRate_other _ _ hc

/-- Claim C4 witness: a refresh of EUR on a miss stores the new rate
under EUR with a fresh timestamp and leaves the USD entry untouched,
while a warm shared timestamp serves USD from the cache. -/
theorem c4_cache_semantics_witness :
    (CurrencyConverter.getExchangeRate "EUR" ⟨[("USD", some 6)], 0⟩ 5000000
        (.fetchOk (some 7))).2.lastUpdate = 5000000
    ∧ CurrencyConverter.lookupRate
        (CurrencyConverter.getExchangeRate "EUR" ⟨[("USD", some 6)], 0⟩ 5000000
          (.fetchOk (some 7))).2.rates "USD" = some (some 6)
    ∧ CurrencyConverter.getExchangeRate "USD" ⟨[("USD", some 6)], 1000⟩ 2000
        (.fetchOk (some 9)) = (some 6, ⟨[("USD", some 6)], 1000⟩) := by
  have h1 := (c4_cache_semantics "EUR" ⟨[("USD", some 6)], 0⟩ 5000000
    (.fetchOk (some 7)) (by decide) (by decide)).2 (by decide)
  have h2 := (c4_cache_semantics "USD" ⟨[("USD", some 6)], 1000⟩ 2000
    (.fetchOk (some 9)) (by decide) (by decide)).1 (by decide)
  refine ⟨h1.1, ?_, ?_⟩
  · rw [h1.2.2 "USD" (by decide)]
    decide
  · rw [h2]
    decide

/-- Claim C5 counterexample: the negative-amount guard hits before the
base-currency identity, so converting -5 in the base currency yields 0
and not -5 (which is what rounding -5 to 2 decimals gives); the claimed
identity does not hold for every amount. -/
theorem c5_negative_base_cex :
    (CurrencyConverter.convertToDKK (some (-5)) "DKK" ⟨[], 0⟩ 0 .fetchErr).1 = some 0
    ∧ round2 (-5) = -5 := by decide

/-- Claim C5 (amended): a missing, zero or negative amount converts to 0
with no cache interaction; a positive amount converts to the amount
times the resolved rate, rounded half-up to 2 decimals; and for the base
currency the rate is 1 with no lookup, so every non-negative amount
converts to itself rounded to 2 decimals. -/
theorem c5_convert_rounding (cache : CurrencyConverter.RateCache) (now : ℤ)
    (out : CurrencyConverter.FetchOutcome) (c : String) :
    (CurrencyConverter.convertToDKK none c cache now out = (some 0, cache))
    ∧ (∀ a : ℚ, a ≤ 0 → CurrencyConverter.convertToDKK (some a) c cache now out
        = (some 0, cache))
    ∧ (∀ a : ℚ, 0 < a → ∀ r, (CurrencyConverter.getExchangeRate c cache now out).1 = some r →
        (CurrencyConverter.convertToDKK (some a) c cache now out).1
          = some (round2 (a * r)))
    ∧ (∀ a : ℚ, 0 ≤ a →
        (CurrencyConverter.convertToDKK (some a) "DKK" cache now out).1
          = some (round2 a)) := by
  refine ⟨?_, ?_, ?_, ?_⟩
  · rw [CurrencyConverter.convertToDKK, if_pos (Or.inl rfl)]
  · intro a ha
    rcases eq_or_lt_of_le ha with ha0 | ha0
    · rw [CurrencyConverter.convertToDKK, if_pos (Or.inr (Or.inl (by rw [ha0])))]
    · rw [CurrencyConverter.convertToDKK,
        if_pos (Or.inr (Or.inr (by simp [jsNumOr, ne_of_lt ha0, ha0])))]
  · intro a ha r hr
    have hguard : ¬((some a : Option ℚ) = none ∨ (some a : Option ℚ) = some 0
        ∨ jsNumOr (some a) 0 < 0) := by
      simp [jsNumOr, ne_of_gt ha]
      linarith
    rw [CurrencyConverter.convertToDKK, if_neg hguard]
    simp [hr, jsMul, jsRound2]
  · intro a ha
    rcases eq_or_lt_of_le ha with ha0 | ha0
    · rw [CurrencyConverter.convertToDKK, if_pos (Or.inr (Or.inl (by rw [← ha0])))]
      rw [← ha0, round2_zero]
    · have hguard : ¬((some a : Option ℚ) = none ∨ (some a : Option ℚ) = some 0
          ∨ jsNumOr (some a) 0 < 0) := by
        simp [jsNumOr, ne_of_gt ha0]
        linarith
      rw [CurrencyConverter.convertToDKK, if_neg hguard]
      rw [CurrencyConverter.getExchangeRate.eq_def, if_pos (Or.inr rfl)]
      simp [jsMul, jsRound2]

/-- Claim C5 witness: converting 0 and -5 yields 0; converting 2.005 USD
at rate 6.8 rounds half-up to 13.63; converting 1.005 DKK yields 1.01. -/
theorem c5_convert_rounding_witness :
    (CurrencyConverter.convertToDKK (some (-5)) "EUR" ⟨[], 0⟩ 0 .fetchErr).1 = some 0
    ∧ (CurrencyConverter.convertToDKK (some 2) "USD" ⟨[], 0⟩ 0 .fetchErr).1
        = some (68/5)
    ∧ (CurrencyConverter.convertToDKK (some (201/200)) "DKK" ⟨[], 0⟩ 0 .fetchErr).1
        = some (101/100) := by
  have h := c5_convert_rounding (⟨[], 0⟩ : CurrencyConverter.RateCache) 0 .fetchErr "USD"
  refine ⟨?_, ?_, ?_⟩
  · have h2 := c5_convert_rounding (⟨[], 0⟩ : CurrencyConverter.RateCache) 0 .fetchErr "EUR"
    rw [(h2.2.1 (-5) (by norm_num))]
  · rw [h.2.2.1 2 (by norm_num) (68/10) (by decide)]
    decide
  · rw [h.2.2.2 (201/200) (by norm_num)]
    decide

/-! ## Claim theorems: portfolio valuation -/

/-- Claim C8: the enrichment lists every holding (missing quotes give a
zero current price, not an error), and computes cost, value, gain and
the zero-guarded gain percent from the DKK-converted prices; the claimed
example instance is checked in the witness. -/
theorem c8_valuation_engine (rateOf : String → ℚ) (priceOf : String → Option ℚ)
    (stocks : List PortfolioRoute.Stock) (s : PortfolioRoute.Stock) :
    (PortfolioRoute.enrichPortfolioWithPrices rateOf priceOf stocks).length = stocks.length
    ∧ (PortfolioRoute.enrichStock rateOf priceOf s).costDKK
        = round2 (PortfolioRoute.convDKK rateOf s.buyPrice s.currency * s.shares)
    ∧ (PortfolioRoute.enrichStock rateOf priceOf s).currentValueDKK
        = round2 (PortfolioRoute.convDKK rateOf (jsNumOr (priceOf s.ticker) 0) s.currency
            * s.shares)
    ∧ (PortfolioRoute.enrichStock rateOf priceOf s).gainDKK
        = round2 (PortfolioRoute.convDKK rateOf (jsNumOr (priceOf s.ticker) 0) s.currency
              * s.shares
            - PortfolioRoute.convDKK rateOf s.buyPrice s.currency * s.shares)
    ∧ (PortfolioRoute.enrichStock rateOf priceOf s).gainPercent
        = (if 0 < PortfolioRoute.convDKK rateOf s.buyPrice s.currency * s.shares
           then round2 ((PortfolioRoute.convDKK rateOf (jsNumOr (priceOf s.ticker) 0)
                  s.currency * s.shares
                - PortfolioRoute.convDKK rateOf s.buyPrice s.currency * s.shares)
              / (PortfolioRoute.convDKK rateOf s.buyPrice s.currency * s.shares) * 100)
           else 0)
    ∧ (priceOf s.ticker = none →
        (PortfolioRoute.enrichStock rateOf priceOf s).currentPriceDKK = 0) := by
  refine ⟨List.length_map _ _, rfl, rfl, rfl, rfl, ?_⟩
  intro h
  have h0 : PortfolioRoute.convDKK rateOf (jsNumOr (priceOf s.ticker) 0) s.currency
      = 0 := by
    rw [h]
    simp [jsNumOr, PortfolioRoute.convDKK]
  simp only [PortfolioRoute.enrichStock, h0, round2_zero]

/-- Claim C8 witness: 10 shares bought at 100 USD with quote 110 and
rate 6.5 value at cost 6500 DKK, value 7150 DKK, gain 650 DKK and gain
percent 10; a holding with no quote keeps a 0 current price. -/
theorem c8_valuation_engine_witness :
    (PortfolioRoute.enrichStock exampleRateOf examplePriceOf exampleStock).costDKK = 6500
    ∧ (PortfolioRoute.enrichStock exampleRateOf examplePriceOf exampleStock).currentValueDKK
        = 7150
    ∧ (PortfolioRoute.enrichStock exampleRateOf examplePriceOf exampleStock).gainDKK = 650
    ∧ (PortfolioRoute.enrichStock exampleRateOf examplePriceOf exampleStock).gainPercent = 10
    ∧ (PortfolioRoute.enrichStock exampleRateOf (fun _ => none) exampleStock).currentPriceDKK
        = 0 := by
  have h := c8_valuation_engine exampleRateOf examplePriceOf [] exampleStock
  have h2 := c8_valuation_engine exampleRateOf (fun _ => none) [] exampleStock
  refine ⟨?_, ?_, ?_, ?_, h2.2.2.2.2.2 rfl⟩
  · rw [h.2.1]
    decide
  · rw [h.2.2.1]
    decide
  · rw [h.2.2.2.1]
    decide
  · rw [h.2.2.2.2.1]
    decide

/-- Claim C2: the portfolio summary handler reads `stock.currentValue`,
a property this enrichment never sets (it sets `currentValueDKK`), and
sums `buyPrice` in the holding's original currency.  For the claimed
USD example the per-position DKK value 7150 exists under
`currentValueDKK`, yet the aggregate totalValue, totalGain and
gainPercent are all `NaN` and totalCost is 1000 (USD units), not the
6500 DKK the claim requires. -/
theorem c2_summary_nan_bug :
    ((PortfolioRoute.enrichPortfolioWithPrices exampleRateOf examplePriceOf
        [exampleStock]).map PortfolioRoute.Enriched.currentValueDKK) = [7150]
    ∧ (PortfolioRoute.portfolioSummary (PortfolioRoute.enrichPortfolioWithPrices
        exampleRateOf examplePriceOf [exampleStock])).totalCost = 1000
    ∧ (PortfolioRoute.portfolioSummary (PortfolioRoute.enrichPortfolioWithPrices
        exampleRateOf examplePriceOf [exampleStock])).totalValue = none
    ∧ (PortfolioRoute.portfolioSummary (PortfolioRoute.enrichPortfolioWithPrices
        exampleRateOf examplePriceOf [exampleStock])).totalGain = none
    ∧ (PortfolioRoute.portfolioSummary (PortfolioRoute.enrichPortfolioWithPrices
        exampleRateOf examplePriceOf [exampleStock])).gainPercent = none := by decide

/-- Claim C9: the allocation handler builds its items from
`stock.currentValue`, which this enrichment never sets, so the total is
`NaN`, the `totalValue > 0` guard fails, and every position reports
percentage 0 — for the two holdings whose enriched DKK values are 700
and 300, the handler reports 0 and 0 instead of 70 and 30. -/
theorem c9_allocation_zero_bug :
    ((PortfolioRoute.enrichPortfolioWithPrices exampleUnitRateOf exampleAllocPriceOf
        exampleAllocStocks).map PortfolioRoute.Enriched.currentValueDKK) = [700, 300]
    ∧ ((PortfolioRoute.allocationHandler (PortfolioRoute.enrichPortfolioWithPrices
        exampleUnitRateOf exampleAllocPriceOf exampleAllocStocks)).map
        PortfolioRoute.AllocItem.value) = [none, none]
    ∧ ((PortfolioRoute.allocationHandler (PortfolioRoute.enrichPortfolioWithPrices
        exampleUnitRateOf exampleAllocPriceOf exampleAllocStocks)).map
        PortfolioRoute.AllocItem.percentage) = [some 0, some 0] := by decide

/-- Claim C10 witness: the all-non-negative nine-payment history input
satisfies the non-negativity hypotheses and gets a non-negative
estimate. -/
theorem c10_estimator_nonneg_witness :
    NonNegInput (.data exampleOutlierData)
    ∧ 0 ≤ DividendsRoute.calculateRegularDividend 0 (.data exampleOutlierData) := by
  have hnn : NonNegInput (.data exampleOutlierData) := by
    simp [NonNegInput, exampleOutlierData, exampleHistory, DividendsRoute.getInfo]
  exact ⟨hnn, c10_estimator_nonneg 0 (.data exampleOutlierData) hnn⟩
